import Mathlib

/-!
Verification of the "onion box" file server (Go, `obs`): a shallow embedding
of its session store, path-confinement check (`isPathSafe`), navigation
state machine (`changeDirectory`) and the file-operation handlers, together
with theorems settling the specification claims about them.

Paths are Unix-style strings; `filepath.Clean`, `filepath.Dir`,
`filepath.Join` and `filepath.Abs` are embedded as lexical functions on
`String` (the Go functions are purely lexical as well).  ASCII case
mapping stands in for Go's `strings.ToLower`.  Filesystem outcomes
(`os.Stat`, `os.Remove`, `os.Mkdir`, ...) are oracles passed to the handler
models, and each handler records the filesystem operations it performs as
an effect trace, in program order.
-/

/-- Split a character list at `/` separators (the segment decomposition
underlying `filepath.Clean`).  `cur` is the current segment, reversed. -/
def splitChars : List Char → List Char → List String
  | cur, [] => [String.mk cur.reverse]
  | cur, c :: rest =>
      if c = '/' then String.mk cur.reverse :: splitChars [] rest
      else splitChars (c :: cur) rest

/-- Join segments with `/` separators. -/
def joinSegs : List String → String
  | [] => ""
  | [s] => s
  | s :: rest => s ++ "/" ++ joinSegs rest

/-- The absolute path with the given segments: `"/" ++ joinSegs ss`. -/
def absString (ss : List String) : String := "/" ++ joinSegs ss

/-- Segment processing of `filepath.Clean` for a rooted path: empty and
`"."` segments are dropped, `".."` pops the stack (and is dropped at the
top, since the path is rooted).  `stack` holds the emitted segments in
reverse. -/
def cleanAbsStack : List String → List String → List String
  | stack, [] => stack.reverse
  | stack, s :: rest =>
      if s = "" ∨ s = "." then cleanAbsStack stack rest
      else if s = ".." then cleanAbsStack stack.tail rest
      else cleanAbsStack (s :: stack) rest

/-- Segment processing of `filepath.Clean` for a relative path: as in the
rooted case, except a `".."` that cannot be popped is kept. -/
def cleanRelStack : List String → List String → List String
  | stack, [] => stack.reverse
  | stack, s :: rest =>
      if s = "" ∨ s = "." then cleanRelStack stack rest
      else if s = ".." then
        match stack with
        | [] => cleanRelStack [".."] rest
        | top :: tl =>
            if top = ".." then cleanRelStack (".." :: top :: tl) rest
            else cleanRelStack tl rest
      else cleanRelStack (s :: stack) rest

/-- Go `path/filepath.Clean` (Unix separator): lexically resolves `.` and
`..` segments and duplicate separators; `""` cleans to `"."`. -/
def goClean (p : String) : String :=
  match p.data with
  | [] => "."
  | c :: _ =>
      if c = '/' then absString (cleanAbsStack [] (splitChars [] p.data))
      else
        match cleanRelStack [] (splitChars [] p.data) with
        | [] => "."
        | s :: rest => joinSegs (s :: rest)

/-- Go `path/filepath.Dir` (Unix): everything up to and including the last
separator, then `Clean`ed; a path with no separator yields `"."`. -/
def goDir (p : String) : String :=
  goClean (String.mk ((p.data.reverse.dropWhile (fun c => ¬ c = '/')).reverse))

/-- Go `path/filepath.Join` for two elements: empty elements are dropped,
the rest are joined with `/` and `Clean`ed; `Join("","") = ""`. -/
def goJoin (a b : String) : String :=
  if a = "" then (if b = "" then "" else goClean b)
  else goClean (a ++ "/" ++ b)

/-- Go `filepath.IsAbs` (Unix): the path starts with `/`. -/
def isAbsPath (p : String) : Bool :=
  match p.data with
  | [] => false
  | c :: _ => c = '/'

/-- Go `filepath.Abs`: an absolute path is `Clean`ed, a relative one is
`Join`ed onto the process working directory `cwd`. -/
def goAbs (cwd p : String) : String :=
  if isAbsPath p then goClean p else goJoin cwd p

/-- Go `strings.ToLower`, restricted to ASCII case mapping (all paths in
the claims are ASCII). -/
def asciiLower (s : String) : String := String.mk (s.data.map Char.toLower)

/-- Go `strings.HasPrefix s pre`. -/
def goStarts (s pre : String) : Bool := pre.data.isPrefixOf s.data

/-- The server's `isPathSafe` (the Path Confiner): lowercased absolute
form of `path` has the lowercased absolute form of the root as a plain
string prefix.  `cwd` is the process working directory consulted by
`filepath.Abs` for relative paths. -/
def isPathSafe (root cwd path : String) : Bool :=
  goStarts (asciiLower (goAbs cwd path)) (asciiLower (goAbs cwd root))

/-- Go `strings.Trim(s, "/\\ \"")` as used on user-supplied directory
names: leading and trailing slashes, backslashes, spaces and double
quotes are removed. -/
def inCutset (c : Char) : Bool := c = '/' ∨ c = '\\' ∨ c = ' ' ∨ c = '\"'

def trimCut (s : String) : String :=
  String.mk (((s.data.dropWhile inCutset).reverse.dropWhile inCutset).reverse)

example : goClean "/" = "/" := by decide
example : goClean "/root/a/.." = "/root" := by decide
example : goClean "/root/../../etc" = "/etc" := by decide
example : goClean "a/../.." = ".." := by decide
example : goDir "/root" = "/" := by decide
example : goDir "/root/a" = "/root" := by decide
example : goJoin "/root" "sub" = "/root/sub" := by decide
example : isPathSafe "/root" "/" "/root/sub" = true := by decide
example : isPathSafe "/root" "/" "/etc" = false := by decide
example : isPathSafe "/root" "/" "/root2" = true := by decide
example : trimCut "/sub/" = "sub" := by decide
example : trimCut ".." = ".." := by decide

/-! ## Session store -/

/-- A session as in the server: current directory and last-access time.
Time is in nanoseconds, as Go's `time.Duration`. -/
structure Session where
  currentDir : String
  lastAccess : Nat
deriving DecidableEq

/-- The session store: the server's `map[string]Session`, embedded as an
association list (insertion order is irrelevant; lookups take the first
match and `storeSet` keeps keys unique). -/
abbrev Store := List (String × Session)

/-- Go map read: first matching key. -/
def lookupStore (t : String) : Store → Option Session
  | [] => none
  | (k, s) :: rest => if k = t then some s else lookupStore t rest

/-- Go map assignment `sessions[t] = s`: overwrite-or-insert. -/
def storeSet (t : String) (s : Session) (st : Store) : Store :=
  (t, s) :: st.filter (fun e => ¬ e.1 = t)

/-- Go `delete(sessions, t)`. -/
def storeRemove (t : String) (st : Store) : Store :=
  st.filter (fun e => ¬ e.1 = t)

/-- The Go constant `5 * time.Minute` in nanoseconds. -/
def fiveMinutes : Nat := 5 * 60 * 1000000000

/-- One pass of `cleanupSessions`: delete every session with
`time.Since(sess.LastAccess) > 5*time.Minute`; i.e. keep exactly those
with `now - lastAccess ≤ fiveMinutes` (a negative `time.Since` keeps the
session in Go, as does the truncated `Nat` subtraction here). -/
def cleanupSweep (now : Nat) (st : Store) : Store :=
  st.filter (fun e => decide (now - e.2.lastAccess ≤ fiveMinutes))

/-- The create/refresh step of `withSession`: an absent cookie or an
unknown token creates a fresh session rooted at `root` under a freshly
generated token; a known token has its `lastAccess` refreshed.  Returns
the token the request now runs under and the updated store. -/
def resolveStore (root : String) (cookieTok : Option String)
    (freshTok : String) (now : Nat) (st : Store) : String × Store :=
  match cookieTok with
  | none => (freshTok, storeSet freshTok ⟨root, now⟩ st)
  | some tok =>
      match lookupStore tok st with
      | none => (freshTok, storeSet freshTok ⟨root, now⟩ st)
      | some s => (tok, storeSet tok ⟨s.currentDir, now⟩ st)

/-- The second read of `withSession` (after the store lock was dropped and
re-taken): a Go map lookup of an absent key yields the zero-value
`Session`, whose `CurrentDir` is the empty string. -/
def secondRead (token : String) (st : Store) : Session :=
  (lookupStore token st).getD ⟨"", 0⟩

/-- The directory handed to the handler by `withSession`, when the store
seen at the second read is `stAtRead` (possibly mutated concurrently
between the two lock acquisitions). -/
def withSessionDir (root : String) (cookieTok : Option String)
    (freshTok : String) (now : Nat) (st stAtRead : Store) : String :=
  (secondRead (resolveStore root cookieTok freshTok now st).1 stAtRead).currentDir

/-- The whole of `withSession` without interference between the two lock acquisitions:
token, updated store, and the directory the handler receives. -/
def withSessionNoRace (root : String) (cookieTok : Option String)
    (freshTok : String) (now : Nat) (st : Store) : String × Store × String :=
  let r := resolveStore root cookieTok freshTok now st
  (r.1, r.2, (secondRead r.1 r.2).currentDir)

/-! ## Operation handlers -/

/-- Result of an `os.Stat` call. -/
inductive StatRes where
  | ok (isDir : Bool)
  | errNotExist
  | errOther
deriving DecidableEq

/-- Result of an `os.Remove` call. -/
inductive RemoveRes where
  | ok
  | errNotExist
  | errPerm
  | errOther
deriving DecidableEq

/-- Result of an `os.Mkdir` call. -/
inductive MkdirRes where
  | ok
  | errExist
  | errOther
deriving DecidableEq

/-- Filesystem-facing operations a handler performs, in program order:
`checkE` is the `isPathSafe` consultation, `statE`/`openE` are reads,
`createE`/`writeE`/`removeE`/`mkdirE` are mutations, and `chdirE` is
`os.Chdir` (a process-wide working-directory mutation). -/
inductive Eff where
  | checkE (p : String)
  | statE (p : String)
  | openE (p : String)
  | createE (p : String)
  | writeE (p : String)
  | removeE (p : String)
  | mkdirE (p : String)
  | chdirE (p : String)
deriving DecidableEq

/-- A handler outcome: HTTP status, response body, effect trace, and the
directory committed to the session store (only `/cd` commits). -/
structure HRes where
  status : Nat
  body : String
  effs : List Eff
  commit : Option String
deriving DecidableEq

/-- The `/upload` handler: multipart parse, form file, join the client
file name onto the session directory, confine, create, copy. -/
def uploadFile (root cwd currentDir fileName : String)
    (formOk fileOk createOk copyOk : Bool) : HRes :=
  if ¬ formOk then ⟨400, "Error parsing form", [], none⟩
  else if ¬ fileOk then ⟨400, "Error retrieving file", [], none⟩
  else if ¬ isPathSafe root cwd (goJoin currentDir fileName) then
    ⟨400, "Invalid path", [.checkE (goJoin currentDir fileName)], none⟩
  else if ¬ createOk then
    ⟨500, "Error creating file",
      [.checkE (goJoin currentDir fileName), .createE (goJoin currentDir fileName)], none⟩
  else if ¬ copyOk then
    ⟨500, "Error writing file",
      [.checkE (goJoin currentDir fileName), .createE (goJoin currentDir fileName),
        .writeE (goJoin currentDir fileName)], none⟩
  else
    ⟨200, "File uploaded successfully",
      [.checkE (goJoin currentDir fileName), .createE (goJoin currentDir fileName),
        .writeE (goJoin currentDir fileName)], none⟩

/-- The `/download` handler: confine, open (missing → 404), stat for the
length, stream (the streamed bytes are not modelled in `body`). -/
def downloadFile (root cwd currentDir fileName : String)
    (openOk statOk : Bool) : HRes :=
  if ¬ isPathSafe root cwd (goJoin currentDir fileName) then
    ⟨400, "Invalid path", [.checkE (goJoin currentDir fileName)], none⟩
  else if ¬ openOk then
    ⟨404, "File not found",
      [.checkE (goJoin currentDir fileName), .openE (goJoin currentDir fileName)], none⟩
  else if ¬ statOk then
    ⟨500, "Error getting file info",
      [.checkE (goJoin currentDir fileName), .openE (goJoin currentDir fileName),
        .statE (goJoin currentDir fileName)], none⟩
  else
    ⟨200, "",
      [.checkE (goJoin currentDir fileName), .openE (goJoin currentDir fileName),
        .statE (goJoin currentDir fileName)], none⟩

/-- The `/delete` handler: confine, `os.Remove`; every `Remove` error is
reported as the same 500 response. -/
def deleteFile (root cwd currentDir fileName : String)
    (rm : String → RemoveRes) : HRes :=
  if ¬ isPathSafe root cwd (goJoin currentDir fileName) then
    ⟨400, "Invalid path", [.checkE (goJoin currentDir fileName)], none⟩
  else
    match rm (goJoin currentDir fileName) with
    | .ok => ⟨200, "File deleted successfully",
        [.checkE (goJoin currentDir fileName), .removeE (goJoin currentDir fileName)], none⟩
    | _ => ⟨500, "Error deleting file",
        [.checkE (goJoin currentDir fileName), .removeE (goJoin currentDir fileName)], none⟩

/-- The `/mkdir` handler: trim the name, join, clean, confine, `os.Mkdir`;
every `Mkdir` error (an already existing target included) is reported as
the same 500 response. -/
def createDirectory (root cwd currentDir dirRaw : String)
    (mk : String → MkdirRes) : HRes :=
  if trimCut dirRaw = "" then ⟨400, "Invalid directory name", [], none⟩
  else if ¬ isPathSafe root cwd (goClean (goJoin currentDir (trimCut dirRaw))) then
    ⟨400, "Invalid path", [.checkE (goClean (goJoin currentDir (trimCut dirRaw)))], none⟩
  else
    match mk (goClean (goJoin currentDir (trimCut dirRaw))) with
    | .ok => ⟨200, "Directory created",
        [.checkE (goClean (goJoin currentDir (trimCut dirRaw))),
          .mkdirE (goClean (goJoin currentDir (trimCut dirRaw)))], none⟩
    | _ => ⟨500, "Error creating directory",
        [.checkE (goClean (goJoin currentDir (trimCut dirRaw))),
          .mkdirE (goClean (goJoin currentDir (trimCut dirRaw)))], none⟩

/-- The candidate directory the `/cd` handler computes from the trimmed
name: lexical parent for `".."`, the configured root for `"root"`,
otherwise join-and-clean. -/
def cdTarget (root currentDir dirName : String) : String :=
  if dirName = ".." then goDir currentDir
  else if dirName = "root" then root
  else goClean (goJoin currentDir dirName)

/-- The `/cd` handler: trim, compute the candidate, `os.Stat` it (before
the confinement check, as in the source), require a directory, confine,
`os.Chdir`, then commit the new directory into the session store (the
commit is the returned `commit` field). -/
def changeDirectory (root cwd currentDir dirRaw : String)
    (stat : String → StatRes) (chdirOk hasCookie : Bool) : HRes :=
  if trimCut dirRaw = "" then ⟨400, "Invalid directory name", [], none⟩
  else
    match stat (cdTarget root currentDir (trimCut dirRaw)) with
    | .errNotExist => ⟨404, "Directory not found",
        [.statE (cdTarget root currentDir (trimCut dirRaw))], none⟩
    | .errOther => ⟨500, "Error accessing directory",
        [.statE (cdTarget root currentDir (trimCut dirRaw))], none⟩
    | .ok isDir =>
        if ¬ isDir then ⟨400, "Not a directory",
          [.statE (cdTarget root currentDir (trimCut dirRaw))], none⟩
        else if ¬ isPathSafe root cwd (cdTarget root currentDir (trimCut dirRaw)) then
          ⟨400, "Invalid path",
            [.statE (cdTarget root currentDir (trimCut dirRaw)),
              .checkE (cdTarget root currentDir (trimCut dirRaw))], none⟩
        else if ¬ chdirOk then
          ⟨500, "Error changing directory",
            [.statE (cdTarget root currentDir (trimCut dirRaw)),
              .checkE (cdTarget root currentDir (trimCut dirRaw)),
              .chdirE (cdTarget root currentDir (trimCut dirRaw))], none⟩
        else if ¬ hasCookie then
          ⟨500, "Session error",
            [.statE (cdTarget root currentDir (trimCut dirRaw)),
              .checkE (cdTarget root currentDir (trimCut dirRaw)),
              .chdirE (cdTarget root currentDir (trimCut dirRaw))], none⟩
        else
          ⟨200, "Directory changed to " ++ cdTarget root currentDir (trimCut dirRaw),
            [.statE (cdTarget root currentDir (trimCut dirRaw)),
              .checkE (cdTarget root currentDir (trimCut dirRaw)),
              .chdirE (cdTarget root currentDir (trimCut dirRaw))], some (cdTarget root currentDir (trimCut dirRaw))⟩

example :
    (changeDirectory "/root" "/" "/root" ".." (fun _ => .ok true) true true).status
      = 400 := by decide
example :
    (changeDirectory "/root" "/" "/root" "sub" (fun _ => .ok true) true true).commit
      = some "/root/sub" := by decide
example :
    (changeDirectory "/root" "/" "/root" "../../etc" (fun _ => .ok true) true true).effs
      = [.statE "/etc", .checkE "/etc"] := by decide

/-! ## Path lemmas: cleaned absolute paths in segment form -/

/-- A proper segment of a cleaned absolute path: nonempty, not `.` or
`..`, and separator-free. -/
def goodSeg (s : String) : Bool :=
  (¬ s = "" : Bool) && (¬ s = "." : Bool) && (¬ s = ".." : Bool)
    && s.data.all (fun c => ¬ c = '/')

theorem goodSeg_spec {s : String} (h : goodSeg s = true) :
    ¬ s = "" ∧ ¬ s = "." ∧ ¬ s = ".." ∧ ∀ c ∈ s.data, ¬ c = '/' := by
  simp only [goodSeg, Bool.and_eq_true, decide_eq_true_eq, List.all_eq_true] at h
  exact ⟨h.1.1.1, h.1.1.2, h.1.2, fun c hc => by simpa using h.2 c hc⟩

theorem splitChars_noSep (cs : List Char) (h : ∀ c ∈ cs, ¬ c = '/') :
    ∀ cur, splitChars cur cs = [String.mk (cur.reverse ++ cs)] := by
  induction cs with
  | nil => intro cur; simp [splitChars]
  | cons c cs ih =>
      intro cur
      have hc : ¬ c = '/' := h c (by simp)
      simp only [splitChars, if_neg hc]
      rw [ih (fun x hx => h x (by simp [hx])) (c :: cur)]
      simp

theorem splitChars_sep (cs : List Char) (h : ∀ c ∈ cs, ¬ c = '/') :
    ∀ cur ds, splitChars cur (cs ++ '/' :: ds)
      = String.mk (cur.reverse ++ cs) :: splitChars [] ds := by
  induction cs with
  | nil => intro cur ds; simp [splitChars]
  | cons c cs ih =>
      intro cur ds
      have hc : ¬ c = '/' := h c (by simp)
      simp only [List.cons_append, splitChars, if_neg hc]
      show splitChars (c :: cur) (cs ++ '/' :: ds) = _
      rw [ih (fun x hx => h x (by simp [hx])) (c :: cur)]
      simp

theorem splitChars_joinSegs (ss : List String) (hne : ss ≠ [])
    (h : ∀ s ∈ ss, goodSeg s = true) :
    splitChars [] (joinSegs ss).data = ss := by
  induction ss with
  | nil => exact absurd rfl hne
  | cons a ss ih =>
      rcases ss with _ | ⟨b, ss⟩
      · have ha := (goodSeg_spec (h a (by simp))).2.2.2
        rw [joinSegs, splitChars_noSep a.data ha []]
        simp
      · have ha := (goodSeg_spec (h a (by simp))).2.2.2
        have hdata : (joinSegs (a :: b :: ss)).data
            = a.data ++ '/' :: (joinSegs (b :: ss)).data := by
          show (a ++ "/" ++ joinSegs (b :: ss)).data = _
          simp [String.data_append]
        rw [hdata, splitChars_sep a.data ha [] _]
        rw [ih (by simp) (fun s hs => h s (by simp [hs]))]
        simp

theorem splitChars_joinSegs_trail (ss : List String) (hne : ss ≠ [])
    (h : ∀ s ∈ ss, goodSeg s = true) :
    splitChars [] ((joinSegs ss).data ++ ['/']) = ss ++ [""] := by
  induction ss with
  | nil => exact absurd rfl hne
  | cons a ss ih =>
      rcases ss with _ | ⟨b, ss⟩
      · have ha := (goodSeg_spec (h a (by simp))).2.2.2
        show splitChars [] (a.data ++ '/' :: []) = _
        rw [splitChars_sep a.data ha []]
        simp [splitChars]
      · have ha := (goodSeg_spec (h a (by simp))).2.2.2
        have hdata : (joinSegs (a :: b :: ss)).data
            = a.data ++ '/' :: (joinSegs (b :: ss)).data := by
          show (a ++ "/" ++ joinSegs (b :: ss)).data = _
          simp [String.data_append]
        have hassoc : (a.data ++ '/' :: (joinSegs (b :: ss)).data) ++ ['/']
            = a.data ++ '/' :: ((joinSegs (b :: ss)).data ++ ['/']) := by
          simp
        rw [hdata, hassoc, splitChars_sep a.data ha []]
        rw [ih (by simp) (fun s hs => h s (by simp [hs]))]
        simp

theorem cleanAbsStack_good (ss : List String) (h : ∀ s ∈ ss, goodSeg s = true) :
    ∀ st ds, cleanAbsStack st (ss ++ ds) = cleanAbsStack (ss.reverse ++ st) ds := by
  induction ss with
  | nil => intro st ds; simp
  | cons a ss ih =>
      intro st ds
      obtain ⟨h1, h2, h3, _⟩ := goodSeg_spec (h a (by simp))
      have hno : ¬ (a = "" ∨ a = ".") := by simp [h1, h2]
      simp only [List.cons_append, cleanAbsStack, if_neg hno, if_neg h3]
      show cleanAbsStack (a :: st) (ss ++ ds) = _
      rw [ih (fun s hs => h s (by simp [hs])) (a :: st)]
      simp

theorem goClean_rooted (p : String) (rest : List Char) (hp : p.data = '/' :: rest) :
    goClean p = absString (cleanAbsStack [] (splitChars [] p.data)) := by
  unfold goClean
  split
  · next heq => rw [hp] at heq; cases heq
  · next c l heq =>
      have hc : c = '/' := by rw [hp] at heq; cases heq; rfl
      rw [if_pos hc]

theorem absString_data (ss : List String) :
    (absString ss).data = '/' :: (joinSegs ss).data := by
  show ("/" ++ joinSegs ss).data = _
  simp [String.data_append]

theorem splitChars_absString (ss : List String) (hne : ss ≠ [])
    (h : ∀ s ∈ ss, goodSeg s = true) :
    splitChars [] (absString ss).data = "" :: ss := by
  rw [absString_data]
  show (if ('/' : Char) = '/' then
      String.mk ([] : List Char).reverse :: splitChars [] (joinSegs ss).data
    else splitChars ['/'] (joinSegs ss).data) = "" :: ss
  rw [if_pos rfl, splitChars_joinSegs ss hne h]
  rfl

theorem cleanAbsStack_id (ss : List String) (h : ∀ s ∈ ss, goodSeg s = true) :
    cleanAbsStack [] ("" :: ss) = ss := by
  have h0 : cleanAbsStack [] ("" :: ss) = cleanAbsStack [] ss := by
    show (if ("" : String) = "" ∨ ("" : String) = "." then cleanAbsStack [] ss
      else if ("" : String) = ".." then cleanAbsStack ([] : List String).tail ss
      else cleanAbsStack [""] ss) = cleanAbsStack [] ss
    rw [if_pos (Or.inl rfl)]
  rw [h0]
  calc cleanAbsStack [] ss = cleanAbsStack [] (ss ++ []) := by simp
    _ = cleanAbsStack (ss.reverse ++ []) [] := cleanAbsStack_good ss h [] []
    _ = (ss.reverse ++ []).reverse := rfl
    _ = ss := by simp

theorem goClean_absString (ss : List String) (h : ∀ s ∈ ss, goodSeg s = true) :
    goClean (absString ss) = absString ss := by
  rcases ss with _ | ⟨a, ss⟩
  · decide
  · rw [goClean_rooted (absString (a :: ss)) _ (absString_data (a :: ss))]
    rw [splitChars_absString (a :: ss) (by simp) h]
    rw [cleanAbsStack_id (a :: ss) h]

theorem joinSegs_concat (a : String) : ∀ ss : List String,
    joinSegs (ss ++ [a]) = if ss = [] then a else joinSegs ss ++ "/" ++ a
  | [] => by simp [joinSegs]
  | [s] => by simp [joinSegs]
  | s :: b :: ss => by
      have e1 : joinSegs ((s :: b :: ss) ++ [a])
          = s ++ "/" ++ joinSegs ((b :: ss) ++ [a]) := rfl
      rw [e1, joinSegs_concat a (b :: ss)]
      simp [joinSegs, String.append_assoc]

theorem dropWhile_append_all {p : Char → Bool} {l₁ l₂ : List Char}
    (h : ∀ c ∈ l₁, p c = true) : (l₁ ++ l₂).dropWhile p = l₂.dropWhile p := by
  induction l₁ with
  | nil => rfl
  | cons c l ih =>
      simp only [List.cons_append, List.dropWhile_cons, h c (by simp)]
      exact ih (fun x hx => h x (by simp [hx]))

theorem cleanAbsStack_trail (ss : List String) (h : ∀ s ∈ ss, goodSeg s = true) :
    cleanAbsStack [] ("" :: (ss ++ [""])) = ss := by
  have h0 : cleanAbsStack [] ("" :: (ss ++ [""])) = cleanAbsStack [] (ss ++ [""]) := by
    show (if ("" : String) = "" ∨ ("" : String) = "." then cleanAbsStack [] (ss ++ [""])
      else if ("" : String) = ".." then cleanAbsStack ([] : List String).tail (ss ++ [""])
      else cleanAbsStack [""] (ss ++ [""])) = cleanAbsStack [] (ss ++ [""])
    rw [if_pos (Or.inl rfl)]
  have h1 : cleanAbsStack (ss.reverse ++ []) [""] = (ss.reverse ++ []).reverse := by
    show (if ("" : String) = "" ∨ ("" : String) = "." then cleanAbsStack (ss.reverse ++ []) []
      else if ("" : String) = ".." then cleanAbsStack (ss.reverse ++ []).tail []
      else cleanAbsStack ("" :: (ss.reverse ++ [])) []) = _
    rw [if_pos (Or.inl rfl)]
    rfl
  rw [h0, cleanAbsStack_good ss h [] [""], h1]
  simp

theorem goDir_absString (ss : List String) (a : String)
    (h : ∀ s ∈ ss ++ [a], goodSeg s = true) :
    goDir (absString (ss ++ [a])) = absString ss := by
  obtain ⟨ha1, _, _, ha4⟩ := goodSeg_spec (h a (by simp))
  have hva : ∀ c ∈ a.data.reverse, (fun c => (¬ c = '/' : Bool)) c = true := by
    intro c hc
    simp only [decide_eq_true_eq]
    exact ha4 c (by simpa using hc)
  rcases ss with _ | ⟨b, ss⟩
  · have hdata : (absString ([] ++ [a])).data = '/' :: a.data := by
      rw [absString_data, joinSegs_concat]
      simp
    unfold goDir
    rw [hdata]
    have hrev : ('/' :: a.data).reverse = a.data.reverse ++ ['/'] := by simp
    rw [hrev, dropWhile_append_all hva]
    show goClean (String.mk (List.dropWhile _ ['/']).reverse) = absString []
    rw [List.dropWhile_cons]
    simp only [decide_eq_true_eq]
    rw [if_neg (by simp)]
    decide
  · have hss : ∀ s ∈ b :: ss, goodSeg s = true := by
      intro s hs
      apply h
      rcases List.mem_cons.mp hs with h1 | h2
      · exact h1 ▸ List.mem_cons_self _ _
      · exact List.mem_cons_of_mem _ (List.mem_append_left _ h2)
    have hdata : (absString ((b :: ss) ++ [a])).data
        = '/' :: ((joinSegs (b :: ss)).data ++ '/' :: a.data) := by
      rw [absString_data, joinSegs_concat]
      simp [String.data_append]
    unfold goDir
    rw [hdata]
    have hrev : ('/' :: ((joinSegs (b :: ss)).data ++ '/' :: a.data)).reverse
        = a.data.reverse ++ '/' :: ((joinSegs (b :: ss)).data.reverse ++ ['/']) := by
      simp
    rw [hrev, dropWhile_append_all hva]
    rw [List.dropWhile_cons]
    simp only [decide_eq_true_eq]
    rw [if_neg (by simp)]
    have hkeep : ('/' :: ((joinSegs (b :: ss)).data.reverse ++ ['/'])).reverse
        = '/' :: ((joinSegs (b :: ss)).data ++ ['/']) := by
      simp
    rw [hkeep]
    have hmkdata : (String.mk ('/' :: ((joinSegs (b :: ss)).data ++ ['/']))).data
        = '/' :: ((joinSegs (b :: ss)).data ++ ['/']) := rfl
    rw [goClean_rooted _ _ hmkdata, hmkdata]
    have hsplit : splitChars [] ('/' :: ((joinSegs (b :: ss)).data ++ ['/']))
        = "" :: ((b :: ss) ++ [""]) := by
      show (if ('/' : Char) = '/' then
          String.mk ([] : List Char).reverse
            :: splitChars [] ((joinSegs (b :: ss)).data ++ ['/'])
        else splitChars ['/'] ((joinSegs (b :: ss)).data ++ ['/'])) = _
      rw [if_pos rfl]
      have htr : (joinSegs (b :: ss)).data ++ ['/']
          = (joinSegs (b :: ss)).data ++ ['/'] ++ [] := by simp
      rw [splitChars_joinSegs_trail (b :: ss) (by simp) hss]
      rfl
    rw [hsplit, cleanAbsStack_trail (b :: ss) hss]

theorem absString_concat_len (ss : List String) (a : String) (ha : ¬ a = "") :
    (absString ss).data.length < (absString (ss ++ [a])).data.length := by
  have hlen : ∀ l : List String,
      (absString l).data.length = 1 + (joinSegs l).data.length := by
    intro l; rw [absString_data]; simp [Nat.add_comm]
  rw [hlen, hlen, joinSegs_concat]
  have hA : 0 < a.data.length := by
    rcases hd : a.data with _ | ⟨c, cs⟩
    · exact absurd (String.ext (by rw [hd])) ha
    · simp [hd]
  rcases ss with _ | ⟨b, ss⟩
  · simpa [joinSegs] using hA
  · rw [if_neg (by simp)]
    simp only [String.data_append, List.length_append]
    omega

theorem goStarts_len {s pre : String} (h : goStarts s pre = true) :
    pre.data.length ≤ s.data.length := by
  unfold goStarts at h
  exact (List.isPrefixOf_iff_prefix.mp h).length_le

theorem asciiLower_len (s : String) : (asciiLower s).data.length = s.data.length := by
  simp [asciiLower]

theorem goStarts_refl (s : String) : goStarts s s = true := by
  unfold goStarts
  exact List.isPrefixOf_iff_prefix.mpr (List.prefix_refl _)

theorem isPathSafe_refl (root cwd : String) : isPathSafe root cwd root = true :=
  goStarts_refl _

theorem isAbsPath_absString (ss : List String) : isAbsPath (absString ss) = true := by
  unfold isAbsPath
  split
  · next heq => rw [absString_data] at heq; cases heq
  · next c l heq =>
      rw [absString_data] at heq
      cases heq
      simp

theorem goAbs_absString (cwd : String) (ss : List String)
    (h : ∀ s ∈ ss, goodSeg s = true) : goAbs cwd (absString ss) = absString ss := by
  unfold goAbs
  rw [if_pos (isAbsPath_absString ss), goClean_absString ss h]

theorem isPathSafe_absString_le {cwd : String} {rs ps : List String}
    (hr : ∀ s ∈ rs, goodSeg s = true) (hp : ∀ s ∈ ps, goodSeg s = true)
    (h : isPathSafe (absString rs) cwd (absString ps) = true) :
    (absString rs).data.length ≤ (absString ps).data.length := by
  unfold isPathSafe at h
  have hle := goStarts_len h
  rw [asciiLower_len, asciiLower_len, goAbs_absString cwd rs hr,
    goAbs_absString cwd ps hp] at hle
  exact hle

/-- The lexical parent of a non-root cleaned absolute path fails the
Confiner check against that path itself: the parent is strictly shorter,
so the prefix test cannot succeed. -/
theorem parent_not_safe (cwd : String) (ss : List String) (a : String)
    (h : ∀ s ∈ ss ++ [a], goodSeg s = true) :
    isPathSafe (absString (ss ++ [a])) cwd (absString ss) = false := by
  cases hb : isPathSafe (absString (ss ++ [a])) cwd (absString ss) with
  | false => rfl
  | true =>
      exfalso
      have hss : ∀ s ∈ ss, goodSeg s = true :=
        fun s hs => h s (List.mem_append_left _ hs)
      have hle := isPathSafe_absString_le h hss hb
      have hlt := absString_concat_len ss a (goodSeg_spec (h a (by simp))).1
      omega

/-- Full case analysis of a `/cd` outcome: either the handler returned 200
and committed the candidate, which passed the Confiner, or it returned a
non-200 status and committed nothing. -/
theorem changeDirectory_spec (root cwd cd draw : String) (stat : String → StatRes)
    (cok hck : Bool) :
    ((changeDirectory root cwd cd draw stat cok hck).status = 200
      ∧ (changeDirectory root cwd cd draw stat cok hck).commit
          = some (cdTarget root cd (trimCut draw))
      ∧ isPathSafe root cwd (cdTarget root cd (trimCut draw)) = true)
    ∨ (¬ (changeDirectory root cwd cd draw stat cok hck).status = 200
      ∧ (changeDirectory root cwd cd draw stat cok hck).commit = none) := by
  unfold changeDirectory
  split
  · exact Or.inr ⟨by simp, rfl⟩
  · split
    · exact Or.inr ⟨by simp, rfl⟩
    · exact Or.inr ⟨by simp, rfl⟩
    · split
      · exact Or.inr ⟨by simp, rfl⟩
      · split
        · exact Or.inr ⟨by simp, rfl⟩
        · split
          · exact Or.inr ⟨by simp, rfl⟩
          · split
            · exact Or.inr ⟨by simp, rfl⟩
            · rename_i hdir hsafe hcok hhck
              exact Or.inl ⟨rfl, rfl, not_not.mp hsafe⟩

/-- C5: navigating `".."` from a session whose current directory equals the
configured root commits nothing outside root: either the request errors
(committing nothing) or — only when root is `/` — it stays at root.  The
lexical parent computed by the navigation switch is caught post hoc by the
`isPathSafe` check; the navigator has no "already at root" special case.
Root is any cleaned absolute path, given by its segments. -/
theorem C5_rootDotDot (ss : List String) (h : ∀ s ∈ ss, goodSeg s = true)
    (cwd : String) (stat : String → StatRes) (chdirOk hasCookie : Bool) :
    ((changeDirectory (absString ss) cwd (absString ss) ".." stat chdirOk hasCookie).commit
        = none
      ∨ (changeDirectory (absString ss) cwd (absString ss) ".." stat chdirOk hasCookie).commit
        = some (absString ss))
    ∧ ((changeDirectory (absString ss) cwd (absString ss) ".." stat chdirOk hasCookie).status
          = 200
      → (changeDirectory (absString ss) cwd (absString ss) ".." stat chdirOk hasCookie).commit
          = some (absString ss)) := by
  have htgt : cdTarget (absString ss) (absString ss) (trimCut "..")
      = goDir (absString ss) := by
    have hdd : trimCut ".." = ".." := by decide
    rw [hdd]
    unfold cdTarget
    rw [if_pos rfl]
  rcases List.eq_nil_or_concat' ss with hnil | ⟨ss₀, a, hcat⟩
  · subst hnil
    have hroot : goDir (absString []) = absString [] := by decide
    rcases changeDirectory_spec (absString []) cwd (absString []) ".." stat chdirOk hasCookie
      with ⟨h200, hcm, _⟩ | ⟨hn, hcm⟩
    · rw [htgt, hroot] at hcm
      exact ⟨Or.inr hcm, fun _ => hcm⟩
    · exact ⟨Or.inl hcm, fun hs => absurd hs hn⟩
  · subst hcat
    have hsafe : isPathSafe (absString (ss₀ ++ [a])) cwd (absString ss₀) = false :=
      parent_not_safe cwd ss₀ a h
    have hdir : goDir (absString (ss₀ ++ [a])) = absString ss₀ := goDir_absString ss₀ a h
    rcases changeDirectory_spec (absString (ss₀ ++ [a])) cwd (absString (ss₀ ++ [a])) ".."
        stat chdirOk hasCookie
      with ⟨h200, hcm, hsf⟩ | ⟨hn, hcm⟩
    · rw [htgt, hdir, hsafe] at hsf
      cases hsf
    · exact ⟨Or.inl hcm, fun hs => absurd hs hn⟩

/-- C5 witness: concrete root `/root`, session at root, `cd ..` with a stat
oracle that reports an existing directory: nothing outside root is
committed. -/
theorem C5_witness :
    (changeDirectory (absString ["root"]) "/" (absString ["root"]) ".."
        (fun _ => StatRes.ok true) true true).commit = none
      ∨ (changeDirectory (absString ["root"]) "/" (absString ["root"]) ".."
        (fun _ => StatRes.ok true) true true).commit = some (absString ["root"]) :=
  (C5_rootDotDot ["root"] (by decide) "/" (fun _ => StatRes.ok true) true true).1

/-! ## Server transition system over the session store and working directory -/

/-- A path in cleaned absolute form: it starts with `/` and `filepath.Clean`
leaves it unchanged (equivalently, it is `absString` of good segments). -/
def cleanedAbs (p : String) : Bool :=
  isAbsPath p && decide (goClean p = p)

theorem cleanedAbs_isAbs {p : String} (h : cleanedAbs p = true) :
    isAbsPath p = true := by
  simp only [cleanedAbs, Bool.and_eq_true, decide_eq_true_eq] at h
  exact h.1

theorem isAbsPath_ne_empty {p : String} (h : isAbsPath p = true) : ¬ p = "" := by
  intro he
  subst he
  exact absurd h (by decide)

theorem isAbsPath_data {p : String} (h : isAbsPath p = true) :
    ∃ rest, p.data = '/' :: rest := by
  unfold isAbsPath at h
  rcases hpd : p.data with _ | ⟨c, rest⟩
  · rw [hpd] at h
    exact absurd h (by simp)
  · rw [hpd] at h
    have hc : c = '/' := of_decide_eq_true h
    exact ⟨rest, by rw [hc]⟩

theorem splitChars_sepFree (cs : List Char) : ∀ cur, (∀ c ∈ cur, ¬ c = '/') →
    ∀ s ∈ splitChars cur cs, ∀ c ∈ s.data, ¬ c = '/' := by
  induction cs with
  | nil =>
      intro cur hcur s hs c hc
      simp only [splitChars, List.mem_singleton] at hs
      subst hs
      exact hcur c (List.mem_reverse.mp hc)
  | cons c0 cs ih =>
      intro cur hcur s hs c hc
      by_cases h0 : c0 = '/'
      · simp only [splitChars, if_pos h0] at hs
        rcases List.mem_cons.mp hs with h1 | h2
        · subst h1
          exact hcur c (List.mem_reverse.mp hc)
        · exact ih [] (by simp) s h2 c hc
      · simp only [splitChars, if_neg h0] at hs
        refine ih (c0 :: cur) ?_ s hs c hc
        intro x hx
        rcases List.mem_cons.mp hx with h1 | h2
        · subst h1; exact h0
        · exact hcur x h2

theorem goodSeg_of (s : String) (h1 : ¬ s = "") (h2 : ¬ s = ".") (h3 : ¬ s = "..")
    (h4 : ∀ c ∈ s.data, ¬ c = '/') : goodSeg s = true := by
  simp only [goodSeg, Bool.and_eq_true, decide_eq_true_eq, List.all_eq_true]
  exact ⟨⟨⟨h1, h2⟩, h3⟩, fun c hc => by simpa using h4 c hc⟩

theorem cleanAbsStack_goodOut (segs : List String) : ∀ stack,
    (∀ s ∈ stack, goodSeg s = true) →
    (∀ s ∈ segs, ∀ c ∈ s.data, ¬ c = '/') →
    ∀ x ∈ cleanAbsStack stack segs, goodSeg x = true := by
  induction segs with
  | nil =>
      intro stack hst _ x hx
      simp only [cleanAbsStack] at hx
      exact hst x (List.mem_reverse.mp hx)
  | cons s segs ih =>
      intro stack hst hsf x hx
      by_cases h1 : s = "" ∨ s = "."
      · simp only [cleanAbsStack, if_pos h1] at hx
        exact ih stack hst (fun t ht => hsf t (by simp [ht])) x hx
      · by_cases h2 : s = ".."
        · simp only [cleanAbsStack, if_neg h1, if_pos h2] at hx
          refine ih stack.tail (fun t ht => hst t (List.mem_of_mem_tail ht))
            (fun t ht => hsf t (by simp [ht])) x hx
        · simp only [cleanAbsStack, if_neg h1, if_neg h2] at hx
          refine ih (s :: stack) ?_ (fun t ht => hsf t (by simp [ht])) x hx
          intro t ht
          rcases List.mem_cons.mp ht with he | he
          · subst he
            exact goodSeg_of t (fun hcon => h1 (Or.inl hcon))
              (fun hcon => h1 (Or.inr hcon)) h2 (hsf t (by simp))
          · exact hst t he

/-- Cleaning a rooted path yields an absolute path in good segment form. -/
theorem goClean_rooted_form (p : String) (rest : List Char)
    (hp : p.data = '/' :: rest) :
    ∃ ss, (∀ s ∈ ss, goodSeg s = true) ∧ goClean p = absString ss := by
  refine ⟨cleanAbsStack [] (splitChars [] p.data), ?_, goClean_rooted p rest hp⟩
  exact cleanAbsStack_goodOut (splitChars [] p.data) [] (by simp)
    (fun s hs c hc => splitChars_sepFree p.data [] (by simp) s hs c hc)

theorem cleanedAbs_form {p : String} (h : cleanedAbs p = true) :
    ∃ ss, (∀ s ∈ ss, goodSeg s = true) ∧ p = absString ss := by
  simp only [cleanedAbs, Bool.and_eq_true, decide_eq_true_eq] at h
  obtain ⟨rest, hd⟩ := isAbsPath_data h.1
  obtain ⟨ss, hss, heq⟩ := goClean_rooted_form p rest hd
  exact ⟨ss, hss, by rw [← h.2, heq]⟩

theorem cleanedAbs_absString (ss : List String) (h : ∀ s ∈ ss, goodSeg s = true) :
    cleanedAbs (absString ss) = true := by
  simp only [cleanedAbs, Bool.and_eq_true, decide_eq_true_eq]
  exact ⟨isAbsPath_absString ss, goClean_absString ss h⟩

theorem goAbs_abs (cwd : String) {p : String} (h : isAbsPath p = true) :
    goAbs cwd p = goClean p := by
  unfold goAbs
  rw [if_pos h]

/-- For an absolute root and an absolute candidate the Confiner never
consults the working directory: the prefix test is cwd-independent. -/
theorem isPathSafe_cwd {root p : String} (hr : isAbsPath root = true)
    (hp : isAbsPath p = true) (cwd cwd2 : String) :
    isPathSafe root cwd p = isPathSafe root cwd2 p := by
  unfold isPathSafe
  rw [goAbs_abs cwd hr, goAbs_abs cwd hp, goAbs_abs cwd2 hr, goAbs_abs cwd2 hp]

/-- The `/cd` candidate stays in cleaned absolute form whenever root and
the handler's directory are in cleaned absolute form (any target name). -/
theorem cdTarget_cleanedAbs (dirName : String) {root hd : String}
    (hr : cleanedAbs root = true) (hh : cleanedAbs hd = true) :
    cleanedAbs (cdTarget root hd dirName) = true := by
  unfold cdTarget
  by_cases h1 : dirName = ".."
  · rw [if_pos h1]
    obtain ⟨ss, hss, hpe⟩ := cleanedAbs_form hh
    subst hpe
    rcases List.eq_nil_or_concat' ss with hn | ⟨ss₀, a, hc⟩
    · subst hn
      have hd0 : goDir (absString []) = absString [] := by decide
      rw [hd0]
      exact cleanedAbs_absString [] (by simp)
    · subst hc
      rw [goDir_absString ss₀ a hss]
      exact cleanedAbs_absString ss₀ (fun s hs => hss s (List.mem_append_left _ hs))
  · rw [if_neg h1]
    by_cases h2 : dirName = "root"
    · rw [if_pos h2]
      exact hr
    · rw [if_neg h2]
      have hne : ¬ hd = "" := isAbsPath_ne_empty (cleanedAbs_isAbs hh)
      unfold goJoin
      rw [if_neg hne]
      obtain ⟨rest, hdata⟩ := isAbsPath_data (cleanedAbs_isAbs hh)
      have hdata2 : (hd ++ "/" ++ dirName).data
          = '/' :: (rest ++ '/' :: dirName.data) := by
        simp [String.data_append, hdata]
      obtain ⟨ss2, hss2, heq⟩ := goClean_rooted_form (hd ++ "/" ++ dirName) _ hdata2
      rw [heq, goClean_absString ss2 hss2]
      exact cleanedAbs_absString ss2 hss2

/-- The whole mutable server state: the session store and the process-wide
working directory (mutated by `os.Chdir` on successful `/cd`). -/
structure SrvState where
  store : Store
  cwd : String
deriving DecidableEq

/-- The store-mutating requests of the server, abstracted to the data the
transition depends on.  A `cdE` event carries the directory the handler
received (possibly stale, or the zero value after a lost race — see
`secondRead`), the raw `dir` query parameter and that request's
filesystem oracle. -/
inductive Event where
  | resolveE (cookieTok : Option String) (freshTok : String) (now : Nat)
  | cdE (token handlerDir dirRaw : String) (stat : String → StatRes)
      (chdirOk hasCookie : Bool) (now : Nat)
  | quitE (token : String)
  | sweepE (now : Nat)

/-- State effect of one request, as in the source: the `withSession`
create/refresh step, the `/cd` commit (when the handler reached it) and
its `os.Chdir` — which the OS resolves against the current working
directory, so a successful chdir to the candidate sets the working
directory to its absolute form — `/quit` deletion, and one sweep pass.
Only `/cd` touches the working directory. -/
def applyEvent (root : String) (st : SrvState) : Event → SrvState
  | .resolveE c f now => ⟨(resolveStore root c f now st.store).2, st.cwd⟩
  | .cdE tok hd draw stat cok hck now =>
      ⟨(match (changeDirectory root st.cwd hd draw stat cok hck).commit with
          | some d => storeSet tok ⟨d, now⟩ st.store
          | none => st.store),
        if cok = true ∧ Eff.chdirE (cdTarget root hd (trimCut draw))
            ∈ (changeDirectory root st.cwd hd draw stat cok hck).effs
        then goAbs st.cwd (cdTarget root hd (trimCut draw))
        else st.cwd⟩
  | .quitE tok => ⟨storeRemove tok st.store, st.cwd⟩
  | .sweepE now => ⟨cleanupSweep now st.store, st.cwd⟩

def applyEvents (root : String) : List Event → SrvState → SrvState
  | [], st => st
  | e :: es, st => applyEvents root es (applyEvent root st e)

/-- The claim's invariant, stated against the current state: every stored
session directory passes the Path Confiner check under the working
directory the process has right now. -/
def stateConfined (root : String) (st : SrvState) : Bool :=
  st.store.all (fun e => isPathSafe root st.cwd e.2.currentDir)

/-- One store entry is in cleaned absolute form and confined. -/
def entryOk (root cwd : String) (e : String × Session) : Bool :=
  cleanedAbs e.2.currentDir && isPathSafe root cwd e.2.currentDir

/-- The strengthened inductive invariant: every stored directory is a
cleaned absolute path (hence its Confiner verdict is independent of later
`os.Chdir` mutations) and passes the Confiner now. -/
def stateInv (root : String) (st : SrvState) : Bool :=
  st.store.all (entryOk root st.cwd)

theorem stateInv_confined {root : String} {st : SrvState}
    (h : stateInv root st = true) : stateConfined root st = true := by
  simp only [stateInv, stateConfined, List.all_eq_true, entryOk,
    Bool.and_eq_true] at h ⊢
  exact fun e he => (h e he).2

theorem entryOk_cwd {root : String} (cwd cwd2 : String) {e : String × Session}
    (hr : isAbsPath root = true) (h : entryOk root cwd e = true) :
    entryOk root cwd2 e = true := by
  simp only [entryOk, Bool.and_eq_true] at h ⊢
  exact ⟨h.1, by rw [← isPathSafe_cwd hr (cleanedAbs_isAbs h.1) cwd cwd2]; exact h.2⟩

theorem all_entryOk_filter {root cwd : String} {st : Store}
    (p : String × Session → Bool)
    (h : st.all (entryOk root cwd) = true) :
    (st.filter p).all (entryOk root cwd) = true := by
  simp only [List.all_eq_true] at h ⊢
  exact fun e he => h e (List.mem_of_mem_filter he)

theorem all_entryOk_set {root cwd t : String} {s : Session} {st : Store}
    (h : st.all (entryOk root cwd) = true)
    (hs : entryOk root cwd (t, s) = true) :
    (storeSet t s st).all (entryOk root cwd) = true := by
  simp only [storeSet, List.all_eq_true] at h ⊢
  intro e he
  rcases List.mem_cons.mp he with h1 | h2
  · subst h1
    exact hs
  · exact h e (List.mem_of_mem_filter h2)

theorem lookupStore_mem {t : String} {st : Store} {s : Session}
    (h : lookupStore t st = some s) : (t, s) ∈ st := by
  induction st with
  | nil => cases h
  | cons e rest ih =>
      rcases e with ⟨k, v⟩
      unfold lookupStore at h
      by_cases hk : k = t
      · rw [if_pos hk] at h
        injection h with hv
        subst hk; subst hv
        exact List.mem_cons_self _ _
      · rw [if_neg hk] at h
        exact List.mem_cons_of_mem _ (ih h)

theorem changeDirectory_commit_props {root cwd cd draw : String}
    {stat : String → StatRes} {cok hck : Bool} {d : String}
    (h : (changeDirectory root cwd cd draw stat cok hck).commit = some d) :
    d = cdTarget root cd (trimCut draw) ∧ isPathSafe root cwd d = true := by
  rcases changeDirectory_spec root cwd cd draw stat cok hck with ⟨_, hcm, hsf⟩ | ⟨_, hcm⟩
  · rw [h] at hcm
    injection hcm with hd
    exact ⟨hd, by rw [hd]; exact hsf⟩
  · rw [h] at hcm
    cases hcm

/-- A `cdE` event whose handler directory is in cleaned absolute form,
i.e. the request did not lose the zero-value race of `withSession`. -/
def eventOkDir : Event → Bool
  | .cdE _ hd _ _ _ _ _ => cleanedAbs hd
  | _ => true

theorem stateInv_applyEvent {root : String} (hroot : cleanedAbs root = true)
    {st : SrvState} (e : Event) (he : eventOkDir e = true)
    (h : stateInv root st = true) :
    stateInv root (applyEvent root st e) = true := by
  have hrAbs := cleanedAbs_isAbs hroot
  cases e with
  | resolveE c f now =>
      simp only [stateInv] at h
      rcases c with _ | tok
      · simp only [applyEvent, resolveStore, stateInv]
        refine all_entryOk_set h ?_
        simp only [entryOk, Bool.and_eq_true]
        exact ⟨hroot, isPathSafe_refl root st.cwd⟩
      · rcases hl : lookupStore tok st.store with _ | s
        · simp only [applyEvent, resolveStore, hl, stateInv]
          refine all_entryOk_set h ?_
          simp only [entryOk, Bool.and_eq_true]
          exact ⟨hroot, isPathSafe_refl root st.cwd⟩
        · simp only [applyEvent, resolveStore, hl, stateInv]
          refine all_entryOk_set h ?_
          have hmem := lookupStore_mem hl
          simp only [List.all_eq_true] at h
          exact h (tok, s) hmem
  | cdE tok hd draw stat cok hck now =>
      simp only [eventOkDir] at he
      rcases hc : (changeDirectory root st.cwd hd draw stat cok hck).commit with _ | d
      · simp only [applyEvent, hc, stateInv, List.all_eq_true] at h ⊢
        intro e2 he2
        exact entryOk_cwd st.cwd _ hrAbs (h e2 he2)
      · obtain ⟨hdq, hsafe⟩ := changeDirectory_commit_props hc
        have hdAbs : cleanedAbs d = true := by
          rw [hdq]
          exact cdTarget_cleanedAbs (trimCut draw) hroot he
        simp only [applyEvent, hc, stateInv, storeSet, List.all_eq_true] at h ⊢
        intro e2 he2
        rcases List.mem_cons.mp he2 with h1 | h2
        · subst h1
          simp only [entryOk, Bool.and_eq_true]
          refine ⟨hdAbs, ?_⟩
          rw [← isPathSafe_cwd hrAbs (cleanedAbs_isAbs hdAbs) st.cwd _]
          exact hsafe
        · exact entryOk_cwd st.cwd _ hrAbs (h e2 (List.mem_of_mem_filter h2))
  | quitE tok =>
      simp only [applyEvent, stateInv, storeRemove] at h ⊢
      exact all_entryOk_filter _ h
  | sweepE now =>
      simp only [applyEvent, stateInv, cleanupSweep] at h ⊢
      exact all_entryOk_filter _ h

theorem stateInv_applyEvents (root : String) (hroot : cleanedAbs root = true) :
    ∀ (es : List Event) (st : SrvState),
      (∀ e ∈ es, eventOkDir e = true) → stateInv root st = true →
      stateInv root (applyEvents root es st) = true
  | [], _, _, h => h
  | e :: es, st, hes, h =>
      stateInv_applyEvents root hroot es (applyEvent root st e)
        (fun x hx => hes x (List.mem_cons_of_mem _ hx))
        (stateInv_applyEvent hroot e (hes e (List.mem_cons_self _ _)) h)

/-- C2 counterexample: the claimed invariant fails on the code.  With the
working directory threaded faithfully (`os.Chdir` on each successful
`/cd`), a request that lost the zero-value race runs with `""` as its
directory; `cd?dir=a/../..` then resolves to the relative candidate
`".."`, which at working directory `/root/x/y` passes the stat and the
Confiner, so the handler commits the relative string `".."` into the
store.  After another session navigates back via `cd root` (chdir to
`/root`), the stored `".."` resolves to `/` and fails the Confiner: a
session holds a directory outside root. -/
theorem C2_counterexample :
    stateInv "/root" (⟨[], "/root"⟩ : SrvState) = true
    ∧ lookupStore "t2" (applyEvents "/root"
        [Event.resolveE none "t1" 0,
          Event.cdE "t1" "/root" "x/y" (fun _ => StatRes.ok true) true true 1,
          Event.cdE "t2" "" "a/../.." (fun _ => StatRes.ok true) true true 2,
          Event.cdE "t1" "/root/x/y" "root" (fun _ => StatRes.ok true) true true 3]
        ⟨[], "/root"⟩).store = some ⟨"..", 2⟩
    ∧ (applyEvents "/root"
        [Event.resolveE none "t1" 0,
          Event.cdE "t1" "/root" "x/y" (fun _ => StatRes.ok true) true true 1,
          Event.cdE "t2" "" "a/../.." (fun _ => StatRes.ok true) true true 2,
          Event.cdE "t1" "/root/x/y" "root" (fun _ => StatRes.ok true) true true 3]
        ⟨[], "/root"⟩).cwd = "/root"
    ∧ isPathSafe "/root" "/root" ".." = false
    ∧ stateConfined "/root" (applyEvents "/root"
        [Event.resolveE none "t1" 0,
          Event.cdE "t1" "/root" "x/y" (fun _ => StatRes.ok true) true true 1,
          Event.cdE "t2" "" "a/../.." (fun _ => StatRes.ok true) true true 2,
          Event.cdE "t1" "/root/x/y" "root" (fun _ => StatRes.ok true) true true 3]
        ⟨[], "/root"⟩) = false := by decide

/-- C2 amended: sessions are created at root and `/cd` commits only a
candidate that passed the Confiner at commit time; that yields the
claimed at-all-times invariant exactly when every `/cd` handler runs with
a cleaned absolute directory (no zero-value race): absolute stored paths
make the Confiner verdict independent of later `os.Chdir` mutations, so
every stored directory passes the check under the current working
directory after any event sequence.  With the race, a relative commit can
later violate it (see the counterexample). -/
theorem C2_amended (root : String) (hroot : cleanedAbs root = true)
    (es : List Event) (st : SrvState)
    (hes : ∀ e ∈ es, eventOkDir e = true) (h : stateInv root st = true) :
    stateInv root (applyEvents root es st) = true
    ∧ stateConfined root (applyEvents root es st) = true :=
  have hi := stateInv_applyEvents root hroot es st hes h
  ⟨hi, stateInv_confined hi⟩

/-- C2 witness: a race-free run — create a session, navigate it into a
subdirectory — keeps every stored directory confined. -/
theorem C2_witness :
    stateInv "/root" (applyEvents "/root"
      [Event.resolveE none "t0" 0,
        Event.cdE "t0" "/root" "sub" (fun _ => StatRes.ok true) true true 1]
      ⟨[], "/start"⟩) = true
    ∧ stateConfined "/root" (applyEvents "/root"
      [Event.resolveE none "t0" 0,
        Event.cdE "t0" "/root" "sub" (fun _ => StatRes.ok true) true true 1]
      ⟨[], "/start"⟩) = true :=
  C2_amended "/root" (by decide) _ ⟨[], "/start"⟩ (by decide) (by decide)


/-! ## Claim theorems -/

/-- The Path Confiner contract as the specification words it: the lexically
cleaned absolute form of the candidate equals root, or has root as a
strict ancestor (a prefix at a `/` boundary), compared case-insensitively. -/
def specWithinRoot (root cwd p : String) : Bool :=
  decide (asciiLower (goAbs cwd p) = asciiLower (goAbs cwd root))
  || goStarts (asciiLower (goAbs cwd p)) (asciiLower (goAbs cwd root) ++ "/")

/-- C1 counterexample: with root `/root`, the sibling path `/root2` merely
shares root as a string prefix; the claim requires rejection, but
`isPathSafe` accepts it, so the claimed equivalence fails. -/
theorem C1_counterexample :
    isPathSafe "/root" "/" "/root2" = true
    ∧ specWithinRoot "/root" "/" "/root2" = false := by decide

/-- C1 amended: only the spec-to-code inclusion holds.  Every path whose
cleaned absolute lowercased form equals root or has root as a strict
ancestor is accepted by `isPathSafe` — but `isPathSafe` is a plain string
prefix test and also accepts sibling paths such as `/root2` under root
`/root` (see the counterexample). -/
theorem C1_amended (root cwd p : String) (h : specWithinRoot root cwd p = true) :
    isPathSafe root cwd p = true := by
  unfold specWithinRoot at h
  have h' : decide (asciiLower (goAbs cwd p) = asciiLower (goAbs cwd root)) = true
      ∨ goStarts (asciiLower (goAbs cwd p)) (asciiLower (goAbs cwd root) ++ "/") = true := by
    simpa using h
  rcases h' with h1 | h2
  · have he := of_decide_eq_true h1
    unfold isPathSafe
    rw [he]
    exact goStarts_refl _
  · unfold isPathSafe goStarts
    unfold goStarts at h2
    have hp := List.isPrefixOf_iff_prefix.mp h2
    refine List.isPrefixOf_iff_prefix.mpr (List.IsPrefix.trans ?_ hp)
    rw [String.data_append]
    exact List.prefix_append _ _

/-- C1 witness: a genuine descendant of root is accepted. -/
theorem C1_witness : isPathSafe "/root" "/" "/root/a" = true :=
  C1_amended "/root" "/" "/root/a" (by decide)

/-- C3 counterexample: `/cd` with `dir=../../etc` from root `/root` resolves
the candidate `/etc`; the handler performs an `os.Stat` on that candidate
BEFORE the Confiner check, so a filesystem read on the rejected candidate
happens even though the response is the 400 "Invalid path" rejection. -/
theorem C3_counterexample :
    (changeDirectory "/root" "/" "/root" "../../etc"
        (fun _ => StatRes.ok true) true true).status = 400
    ∧ (changeDirectory "/root" "/" "/root" "../../etc"
        (fun _ => StatRes.ok true) true true).effs
      = [Eff.statE "/etc", Eff.checkE "/etc"] := by decide

/-- C3 amended: for upload, download, delete and mkdir the Confiner check
precedes any filesystem operation on the resolved candidate, and a failed
check yields the 400 "Invalid path" rejection with no filesystem operation
performed.  For `/cd`, however, the handler stats the candidate before the
check; a failed check still yields 400 "Invalid path" and prevents the
chdir and the commit, but a stat of the candidate has already occurred. -/
theorem C3_amended (root cwd cd fn draw : String)
    (formOk fileOk createOk copyOk openOk statOk : Bool)
    (rm : String → RemoveRes) (mk : String → MkdirRes)
    (stat : String → StatRes) (chdirOk hasCookie : Bool) :
    (formOk = true → fileOk = true →
      isPathSafe root cwd (goJoin cd fn) = false →
      uploadFile root cwd cd fn formOk fileOk createOk copyOk
        = ⟨400, "Invalid path", [.checkE (goJoin cd fn)], none⟩)
    ∧ (isPathSafe root cwd (goJoin cd fn) = false →
      downloadFile root cwd cd fn openOk statOk
        = ⟨400, "Invalid path", [.checkE (goJoin cd fn)], none⟩)
    ∧ (isPathSafe root cwd (goJoin cd fn) = false →
      deleteFile root cwd cd fn rm
        = ⟨400, "Invalid path", [.checkE (goJoin cd fn)], none⟩)
    ∧ (¬ trimCut draw = "" →
      isPathSafe root cwd (goClean (goJoin cd (trimCut draw))) = false →
      createDirectory root cwd cd draw mk
        = ⟨400, "Invalid path",
            [.checkE (goClean (goJoin cd (trimCut draw)))], none⟩)
    ∧ (¬ trimCut draw = "" →
      stat (cdTarget root cd (trimCut draw)) = StatRes.ok true →
      isPathSafe root cwd (cdTarget root cd (trimCut draw)) = false →
      changeDirectory root cwd cd draw stat chdirOk hasCookie
        = ⟨400, "Invalid path",
            [.statE (cdTarget root cd (trimCut draw)),
              .checkE (cdTarget root cd (trimCut draw))], none⟩) := by
  refine ⟨?_, ?_, ?_, ?_, ?_⟩
  · intro h1 h2 h3
    unfold uploadFile
    rw [if_neg (by simp [h1]), if_neg (by simp [h2]), if_pos (by simp [h3])]
  · intro h3
    unfold downloadFile
    rw [if_pos (by simp [h3])]
  · intro h3
    unfold deleteFile
    rw [if_pos (by simp [h3])]
  · intro h0 h3
    unfold createDirectory
    rw [if_neg h0, if_pos (by simp [h3])]
  · intro h0 hstat h3
    unfold changeDirectory
    rw [if_neg h0]
    simp only [hstat]
    rw [if_neg (by simp), if_pos (by simp [h3])]

/-- C3 witness: the four handlers reject an escaping name with no
filesystem operation, and `/cd` rejects but only after the stat. -/
theorem C3_witness :
    uploadFile "/root" "/" "/root" "../x" true true true true
      = ⟨400, "Invalid path", [Eff.checkE (goJoin "/root" "../x")], none⟩
    ∧ changeDirectory "/root" "/" "/root" "../../etc"
        (fun _ => StatRes.ok true) true true
      = ⟨400, "Invalid path",
          [Eff.statE (cdTarget "/root" "/root" (trimCut "../../etc")),
            Eff.checkE (cdTarget "/root" "/root" (trimCut "../../etc"))], none⟩ := by
  constructor
  · exact (C3_amended "/root" "/" "/root" "../x" "../../etc" true true true true true true
      (fun _ => RemoveRes.ok) (fun _ => MkdirRes.ok) (fun _ => StatRes.ok true)
      true true).1 rfl rfl (by decide)
  · exact (C3_amended "/root" "/" "/root" "../x" "../../etc" true true true true true true
      (fun _ => RemoveRes.ok) (fun _ => MkdirRes.ok) (fun _ => StatRes.ok true)
      true true).2.2.2.2 (by decide) rfl (by decide)

/-- C4 counterexample: a successful `/cd` performs `os.Chdir` — a
process-wide working-directory mutation — so committing the session
directory is not the sole side effect. -/
theorem C4_counterexample :
    (changeDirectory "/root" "/" "/root" "sub"
        (fun _ => StatRes.ok true) true true).status = 200
    ∧ Eff.chdirE "/root/sub"
        ∈ (changeDirectory "/root" "/" "/root" "sub"
            (fun _ => StatRes.ok true) true true).effs := by decide

/-- Either `/cd` did not return 200, or its full outcome is the success
record: stat, check, chdir, and the commit of the candidate. -/
theorem changeDirectory_succ (root cwd cd draw : String) (stat : String → StatRes)
    (cok hck : Bool) :
    ¬ (changeDirectory root cwd cd draw stat cok hck).status = 200
    ∨ changeDirectory root cwd cd draw stat cok hck
        = ⟨200, "Directory changed to " ++ cdTarget root cd (trimCut draw),
            [.statE (cdTarget root cd (trimCut draw)),
              .checkE (cdTarget root cd (trimCut draw)),
              .chdirE (cdTarget root cd (trimCut draw))],
            some (cdTarget root cd (trimCut draw))⟩ := by
  unfold changeDirectory
  split
  · left; simp
  · split
    · left; simp
    · left; simp
    · split
      · left; simp
      · split
        · left; simp
        · split
          · left; simp
          · split
            · left; simp
            · right; rfl

/-- C4 amended: on a 200 from `/cd`, the handler committed the candidate
into the session, performed exactly one stat (a read), the Confiner
check, and one `os.Chdir` — a process-wide working-directory mutation —
and no filesystem mutation.  The spec's "sole side effect" wording fails
only on the chdir (see the counterexample). -/
theorem C4_amended (root cwd cd draw : String) (stat : String → StatRes)
    (chdirOk hasCookie : Bool)
    (h : (changeDirectory root cwd cd draw stat chdirOk hasCookie).status = 200) :
    (changeDirectory root cwd cd draw stat chdirOk hasCookie).commit
        = some (cdTarget root cd (trimCut draw))
    ∧ (changeDirectory root cwd cd draw stat chdirOk hasCookie).effs
        = [Eff.statE (cdTarget root cd (trimCut draw)),
            Eff.checkE (cdTarget root cd (trimCut draw)),
            Eff.chdirE (cdTarget root cd (trimCut draw))] := by
  rcases changeDirectory_succ root cwd cd draw stat chdirOk hasCookie with hn | heq
  · exact absurd h hn
  · rw [heq]
    exact ⟨rfl, rfl⟩

/-- C4 witness: a concrete successful navigation. -/
theorem C4_witness :
    (changeDirectory "/root" "/" "/root" "sub"
        (fun _ => StatRes.ok true) true true).commit
      = some (cdTarget "/root" "/root" (trimCut "sub"))
    ∧ (changeDirectory "/root" "/" "/root" "sub"
        (fun _ => StatRes.ok true) true true).effs
      = [Eff.statE (cdTarget "/root" "/root" (trimCut "sub")),
          Eff.checkE (cdTarget "/root" "/root" (trimCut "sub")),
          Eff.chdirE (cdTarget "/root" "/root" (trimCut "sub"))] :=
  C4_amended "/root" "/" "/root" "sub" (fun _ => StatRes.ok true) true true (by decide)

theorem lookupStore_set_self (t : String) (s : Session) (st : Store) :
    lookupStore t (storeSet t s st) = some s := by
  show (if t = t then some s
    else lookupStore t (st.filter (fun e => ¬ e.1 = t))) = some s
  rw [if_pos rfl]

theorem lookupStore_filter_ne {t t2 : String} (st : Store) (h : ¬ t2 = t) :
    lookupStore t2 (st.filter (fun e => ¬ e.1 = t)) = lookupStore t2 st := by
  induction st with
  | nil => rfl
  | cons e rest ih =>
      rcases e with ⟨k, v⟩
      by_cases hk : k = t
      · subst hk
        rw [List.filter_cons, if_neg (by simp)]
        rw [ih]
        show _ = (if k = t2 then some v else lookupStore t2 rest)
        rw [if_neg (fun he => h he.symm)]
      · rw [List.filter_cons, if_pos (by simp [hk])]
        show (if k = t2 then some v
          else lookupStore t2 (rest.filter (fun e => ¬ e.1 = t))) = _
        by_cases hk2 : k = t2
        · rw [if_pos hk2]
          show _ = (if k = t2 then some v else lookupStore t2 rest)
          rw [if_pos hk2]
        · rw [if_neg hk2, ih]
          show _ = (if k = t2 then some v else lookupStore t2 rest)
          rw [if_neg hk2]

/-- C6 counterexample: the `/cd` commit is an unconditional Go map
assignment; performed with a token absent from the store, it inserts a
fresh entry instead of being a no-op. -/
theorem C6_counterexample :
    lookupStore "t" ([] : Store) = none
    ∧ ¬ storeSet "t" ⟨"/root", 5⟩ ([] : Store) = ([] : Store)
    ∧ lookupStore "t" (storeSet "t" ⟨"/root", 5⟩ ([] : Store))
        = some ⟨"/root", 5⟩ := by decide

/-- C6 amended: the commit step of `/cd` unconditionally assigns the
session: it overwrites the entry (with refreshed last-access time) when
the token exists, and when the token no longer exists it inserts a new
entry under that token — resurrecting the session — rather than being a
no-op.  Other tokens are unaffected. -/
theorem C6_amended (t d : String) (now : Nat) (st : Store) :
    lookupStore t (storeSet t ⟨d, now⟩ st) = some ⟨d, now⟩
    ∧ (∀ t2, ¬ t2 = t →
        lookupStore t2 (storeSet t ⟨d, now⟩ st) = lookupStore t2 st) := by
  constructor
  · exact lookupStore_set_self t ⟨d, now⟩ st
  · intro t2 h2
    show (if t = t2 then some ⟨d, now⟩
      else lookupStore t2 (st.filter (fun e => ¬ e.1 = t))) = lookupStore t2 st
    rw [if_neg (fun he => h2 he.symm)]
    exact lookupStore_filter_ne st h2

/-- C6 witness: updating token `a` leaves token `b`'s entry unchanged. -/
theorem C6_witness :
    lookupStore "b" (storeSet "a" ⟨"/root", 7⟩ [("b", ⟨"/root/x", 3⟩)])
      = lookupStore "b" [("b", ⟨"/root/x", 3⟩)] :=
  (C6_amended "a" "/root" 7 [("b", ⟨"/root/x", 3⟩)]).2 "b" (by decide)

/-- C7: one sweep pass keeps exactly the sessions whose last access is at
most the five-minute threshold old (and removes exactly the strictly
older ones, never a session before it has been idle that long); a request
presenting an unknown token — or none — transparently receives a freshly
created session whose directory is root, under the freshly generated
token, and the handler then runs with root as its directory. -/
theorem C7_sweepAndFresh (root tok freshTok : String) (now : Nat) (st : Store)
    (t : String) (s : Session) :
    ((t, s) ∈ cleanupSweep now st ↔ ((t, s) ∈ st ∧ now - s.lastAccess ≤ fiveMinutes))
    ∧ (lookupStore tok st = none →
        withSessionNoRace root (some tok) freshTok now st
          = (freshTok, storeSet freshTok ⟨root, now⟩ st, root))
    ∧ withSessionNoRace root none freshTok now st
        = (freshTok, storeSet freshTok ⟨root, now⟩ st, root) := by
  refine ⟨?_, ?_, ?_⟩
  · unfold cleanupSweep
    rw [List.mem_filter]
    simp
  · intro hl
    simp only [withSessionNoRace, resolveStore, secondRead, hl, lookupStore_set_self]
    rfl
  · simp only [withSessionNoRace, resolveStore, secondRead, lookupStore_set_self]
    rfl

/-- C7 witness: a session exactly at the threshold survives the sweep, and
an unknown token yields a fresh session rooted at root. -/
theorem C7_witness :
    ("a", (⟨"/r", 0⟩ : Session)) ∈ cleanupSweep fiveMinutes [("a", ⟨"/r", 0⟩)]
    ∧ withSessionNoRace "/r" (some "t") "f" 3 []
        = ("f", storeSet "f" ⟨"/r", 3⟩ [], "/r") := by
  constructor
  · exact (C7_sweepAndFresh "/r" "t" "f" fiveMinutes [("a", ⟨"/r", 0⟩)]
      "a" ⟨"/r", 0⟩).1.mpr ⟨by decide, by decide⟩
  · exact (C7_sweepAndFresh "/r" "t" "f" 3 [] "a" ⟨"/r", 0⟩).2.1 rfl

/-- C8 counterexample: `/mkdir` on a target that already exists is reported
as a 500 "Error creating directory", not as a 400 StateConflict. -/
theorem C8_counterexample :
    ¬ (createDirectory "/root" "/" "/root" "sub"
        (fun _ => MkdirRes.errExist)).status = 400
    ∧ (createDirectory "/root" "/" "/root" "sub"
        (fun _ => MkdirRes.errExist)).status = 500
    ∧ (createDirectory "/root" "/" "/root" "sub"
        (fun _ => MkdirRes.errExist)).body = "Error creating directory" := by decide

/-- C8 amended: when the create-directory target already exists, the
request fails with status 500 and the generic "Error creating directory"
body — indistinguishable from any other `os.Mkdir` failure — rather than
a 400 StateConflict. -/
theorem C8_amended (root cwd cd draw : String) (mk : String → MkdirRes)
    (h0 : ¬ trimCut draw = "")
    (h1 : isPathSafe root cwd (goClean (goJoin cd (trimCut draw))) = true)
    (h2 : mk (goClean (goJoin cd (trimCut draw))) = MkdirRes.errExist) :
    createDirectory root cwd cd draw mk
      = ⟨500, "Error creating directory",
          [Eff.checkE (goClean (goJoin cd (trimCut draw))),
            Eff.mkdirE (goClean (goJoin cd (trimCut draw)))], none⟩ := by
  unfold createDirectory
  rw [if_neg h0, if_neg (by simp [h1])]
  simp only [h2]

/-- C8 witness: concrete already-exists failure. -/
theorem C8_witness :
    createDirectory "/root" "/" "/root" "sub" (fun _ => MkdirRes.errExist)
      = ⟨500, "Error creating directory",
          [Eff.checkE (goClean (goJoin "/root" (trimCut "sub"))),
            Eff.mkdirE (goClean (goJoin "/root" (trimCut "sub")))], none⟩ :=
  C8_amended "/root" "/" "/root" "sub" (fun _ => MkdirRes.errExist)
    (by decide) (by decide) rfl

/-- C9 counterexample: deleting a missing file and deleting a file that
fails with a permission error produce the identical response (500,
"Error deleting file") — the two failure conditions are not
distinguishable by the client. -/
theorem C9_counterexample :
    deleteFile "/root" "/" "/root" "a" (fun _ => RemoveRes.errNotExist)
      = deleteFile "/root" "/" "/root" "a" (fun _ => RemoveRes.errPerm)
    ∧ (deleteFile "/root" "/" "/root" "a"
        (fun _ => RemoveRes.errNotExist)).status = 500 := by decide

/-- C9 amended: every `os.Remove` failure — not-found and permission or
other I/O errors alike — yields the same undifferentiated delete
response. -/
theorem C9_amended (root cwd cd fn : String) (rm1 rm2 : String → RemoveRes)
    (h1 : rm1 (goJoin cd fn) = RemoveRes.errNotExist)
    (h2 : rm2 (goJoin cd fn) = RemoveRes.errPerm) :
    deleteFile root cwd cd fn rm1 = deleteFile root cwd cd fn rm2 := by
  unfold deleteFile
  rw [h1, h2]

/-- C9 witness: concrete equality of the two failure responses. -/
theorem C9_witness :
    deleteFile "/r" "/" "/r" "f" (fun _ => RemoveRes.errNotExist)
      = deleteFile "/r" "/" "/r" "f" (fun _ => RemoveRes.errPerm) :=
  C9_amended "/r" "/" "/r" "f" _ _ rfl rfl

/-- C10: in `withSession`, the session is re-read under a second lock
acquisition (modelled by the separately supplied store `stAtRead`); if
the token is absent at that read, the Go map lookup yields the zero-value
`Session`, so the handler is invoked with the empty string — not root —
as its current directory. -/
theorem C10_zeroValue (root : String) (cookieTok : Option String)
    (freshTok : String) (now : Nat) (st stAtRead : Store)
    (h : lookupStore (resolveStore root cookieTok freshTok now st).1 stAtRead = none) :
    withSessionDir root cookieTok freshTok now st stAtRead = "" := by
  unfold withSessionDir secondRead
  rw [h]
  rfl

/-- C10 witness: a session created under a fresh token whose entry is gone
by the second read hands the handler the empty string. -/
theorem C10_witness :
    withSessionDir "/root" (some "t") "f" 0 [] [] = "" :=
  C10_zeroValue "/root" (some "t") "f" 0 [] [] rfl
